import Mathlib

/-!
Shallow embedding of `mrainet/mraicnn.py` (class `MRAIConvolutionalNeuralNetwork`).

Conventions of the embedding:
* numpy 2-D numeric arrays are `List (List Int)` (pixel intensities never undergo
  arithmetic in the modelled code paths, so `Int` suffices); numpy arrays are
  rectangular, and theorems carry rectangularity hypotheses where needed.
* label values are `Option Int`: `some c` is a tissue class code, `none` is the
  NaN "unknown" sentinel of the label images.
* code that can raise (`ValueError`, broadcast failures of numpy slice
  assignment, `np.ravel_multi_index` bound errors) returns `Except String`.
* `np.random.choice(..., replace=False)` draws are modelled by an explicit
  oracle: a list of index lists, one per call, consumed in order.  An oracle
  entry that is not a valid without-replacement draw is mapped to an error;
  the real RNG only produces valid draws, so quantifying over oracles covers
  every run of the program.
* a numpy patch has shape (patchH, patchW, 1); the trailing singleton channel
  axis is represented implicitly, a patch is `List (List Int)`.
-/

/-- A 2-D image: list of rows of pixel intensities. -/
abbrev Img : Type := List (List Int)

/-- A 2-D label image: rows of class codes / NaN sentinels. -/
abbrev LImg : Type := List (List (Option Int))

/-- One row of the sparse label array: (row index, column index, label value). -/
abbrev SRow : Type := Nat × Nat × Option Int

/-- A patch sliced from an image (the trailing numpy channel axis is implicit). -/
abbrev Patch : Type := List (List Int)

/-- `X.shape` of a rectangular 2-D numpy array. -/
def shape2 (X : List (List α)) : Nat × Nat := (X.length, (X.headD []).length)

/-- Python/numpy basic slice `l[s:e]`: negative bounds count from the end,
and bounds are clamped to `[0, len l]`. -/
def pySlice (s e : Int) (l : List α) : List α :=
  let n : Int := l.length
  let s' : Int := if s < 0 then max (n + s) 0 else min s n
  let e' : Int := if e < 0 then max (n + e) 0 else min e n
  (l.drop s'.toNat).take (e'.toNat - s'.toNat)

/-- Insert an integer into a sorted duplicate-free list, keeping it sorted
and duplicate-free (helper for the `np.unique` family of operations). -/
def insSorted (x : Int) : List Int → List Int
  | [] => [x]
  | y :: ys => if x < y then x :: y :: ys else if x = y then y :: ys else y :: insSorted x ys

/-- Sorted list of distinct values, as produced by `np.unique` on real entries. -/
def sortDedup (l : List Int) : List Int := l.foldr insSorted []

/-- `np.unique(y[:, 2])` restricted to real (non-NaN) class values.  NaNs are
kept by `np.unique` but can never survive `np.intersect1d` (NaN ≠ NaN), so
dropping them here is observationally equivalent for `sample_pairs`. -/
def uniqueLabels (y : List SRow) : List Int :=
  sortDedup (y.filterMap (fun r => r.2.2))

/-- `np.intersect1d`: sorted distinct values common to both inputs. -/
def intersect1d (a b : List Int) : List Int :=
  sortDedup (a.filter (fun v => b.contains v))

/-- `np.setdiff1d`: sorted distinct values of `a` that are not in `b`. -/
def setdiff1d (a b : List Int) : List Int :=
  sortDedup (a.filter (fun v => !(b.contains v)))

/-- `matrix2sparse(X, edge, remove_nans)`: crop `edge` rows/columns from each
side, then stack the `np.meshgrid` coordinate arrays (transposed and ravelled,
i.e. row-major) with the cropped values; optionally drop NaN rows.
`np.arange(edge0, h-edge0)` is rendered as `edge0 + jr` for
`jr < h - edge0 - edge0`, and the meshgrid/transpose/ravel/vstack dance is
rendered directly as the row-major enumeration it computes. -/
def matrix2sparse (X : LImg) (edge : Nat × Nat) (remove_nans : Bool) : List SRow :=
  let h := X.length
  let w := (X.headD []).length
  let Xc := ((X.drop edge.1).take (h - edge.1 - edge.1)).map
              (fun r => (r.drop edge.2).take (w - edge.2 - edge.2))
  let sX := (List.range (h - edge.1 - edge.1)).flatMap
              (fun jr => (List.range (w - edge.2 - edge.2)).map
                (fun ic => ((edge.1 + jr, edge.2 + ic, (Xc.getD jr []).getD ic none) : SRow)))
  if remove_nans then sX.filter (fun r => r.2.2.isSome) else sX

/-- The sparse label map the training loop `train` builds for each slice:
`self.matrix2sparse(Y[i])`, i.e. with the default `edge=(0, 0)` and the
default `remove_nans=False`. -/
def train_sparse_map (Y : LImg) : List SRow := matrix2sparse Y (0, 0) false

/-- `subsample_rows(X, num_draw)`: raises when more rows are requested than
exist; otherwise returns the rows at the drawn indices, in drawn order.  The
random draw of `rn.choice(range(N), size=num_draw, replace=False)` is supplied
by the oracle list `pick`; an invalid oracle entry (wrong length, repeats, or
out-of-range index) is an error the real RNG never produces. -/
def subsample_rows [Inhabited α] (X : List α) (num_draw : Nat) (pick : List Nat) :
    Except String (List α) :=
  if num_draw > X.length then
    Except.error "Number of samples to draw larger than array."
  else if pick.length = num_draw ∧ pick.Nodup ∧ ∀ i ∈ pick, i < X.length then
    Except.ok (pick.map (fun i => X.getD i default))
  else
    Except.error "invalid randomness oracle entry"

/-- Pop the next random draw from the oracle. -/
def popOracle (orc : List (List Nat)) : Except String (List Nat × List (List Nat)) :=
  match orc with
  | [] => Except.error "randomness oracle exhausted"
  | p :: rest => Except.ok (p, rest)

/-- `np.unravel_index(p, (H, W))`: row-major unravel; raises when the linear
index is out of bounds. -/
def unravel_index (p : Nat) (sh : Nat × Nat) : Except String (Nat × Nat) :=
  if p < sh.1 * sh.2 then Except.ok (p / sh.2, p % sh.2)
  else Except.error "index is out of bounds for array"

/-- `np.ravel_multi_index(idx.T, (H, W))` for an (n, 2) index array: raises
when a coordinate exceeds its dimension, otherwise `i*W + j` per row. -/
def ravel_multi_index (idx : List (Nat × Nat)) (sh : Nat × Nat) :
    Except String (List Nat) :=
  idx.mapM (fun ij =>
    if ij.1 < sh.1 ∧ ij.2 < sh.2 then Except.ok (ij.1 * sh.2 + ij.2)
    else Except.error "invalid entry in coordinates array")

/-- `gen_index_combs((p, q))`: `np.array(np.meshgrid(p, q)).T.reshape(-1, 2)`,
which is the Cartesian product with the first array varying slowest. -/
def gen_index_combs (p q : List Nat) : List (Nat × Nat) :=
  p.flatMap (fun x => q.map (fun y => (x, y)))

/-- The per-class coordinate selection of `sample_pairs`:
`y[y[:, 2] == classk, :2].astype('uint8')` — the rows of class `classk`,
both coordinates cast to an unsigned 8-bit integer (reduced mod 256). -/
def classIndices (y : List SRow) (classk : Int) : List (Nat × Nat) :=
  (y.filter (fun r => r.2.2 == some classk)).map (fun r => (r.1 % 256, r.2.1 % 256))

/-- The (dead) inner-loop selection of `sample_pairs`:
`y[y[:, 2] == classl, :1].astype('uint8')` — only column 0 (the row index),
cast to uint8. -/
def classCol0 (y : List SRow) (classl : Int) : List Nat :=
  (y.filter (fun r => r.2.2 == some classl)).map (fun r => r.1 % 256)

/-- The numpy index array fed to `index2patch`, tagged by rank, mirroring the
dynamic `len(index.shape)` dispatch of the source. -/
inductive PIndex : Type
  | scalar (v : Nat)               -- rank-0 array
  | linear (ix : List Nat)         -- rank-1 array of linear indices
  | pairs (ix : List (Nat × Nat))  -- rank-2 array of (row, col) rows
  | higher                         -- rank ≥ 3
deriving DecidableEq, Repr

/-- Slice one patch out of `X` and broadcast-assign it into a zero patch of
shape `ps`, as `patches[n, :, :, 0] = X[h-vstep:h+vstep+1, w-hstep:w+hstep+1]`
does: the slice silently clamps at the borders and the assignment then raises
unless each dimension of the slice equals the patch dimension or is 1
(numpy broadcasting). `h` is used on the row axis and `w` on the column axis. -/
def extractPatch (ps : Nat × Nat) (X : Img) (h w : Nat) : Except String Patch :=
  let vstep := (ps.1 - 1) / 2
  let hstep := (ps.2 - 1) / 2
  let sub := (pySlice ((h : Int) - vstep) ((h : Int) + vstep + 1) X).map
               (pySlice ((w : Int) - hstep) ((w : Int) + hstep + 1))
  let sh := sub.length
  let sw := (sub.headD []).length
  if (sh = ps.1 ∨ sh = 1) ∧ (sw = ps.2 ∨ sw = 1) then
    Except.ok ((List.range ps.1).map (fun r =>
      (List.range ps.2).map (fun c =>
        (sub.getD (if sh = 1 then 0 else r) []).getD (if sw = 1 then 0 else c) 0)))
  else
    Except.error "could not broadcast input array into patch slot"

/-- `index2patch(X, index)`.  A rank-0 index raises the (misnamed)
"empty array" error; a rank-1 array is unravelled row-major against `X.shape`
with the two components stored in `uint8` scratch arrays — note the source
assigns `w[n], h[n] = np.unravel_index(...)` and then slices rows by `h` and
columns by `w`, swapping the unravelled row and column; a rank-2 array uses
column 0 as row and column 1 as column, unmodified. -/
def index2patch (ps : Nat × Nat) (X : Img) (index : PIndex) :
    Except String (List Patch) :=
  match index with
  | PIndex.scalar _ => Except.error "Index is an empty array."
  | PIndex.higher => Except.error "Index has wrong shape."
  | PIndex.linear ix =>
      ix.mapM (fun p => do
        let rc ← unravel_index p (shape2 X)
        -- w[n] := row component, h[n] := col component, both cast to uint8
        let w := rc.1 % 256
        let h := rc.2 % 256
        extractPatch ps X h w)
  | PIndex.pairs ix =>
      -- h = index[:, 0], w = index[:, 1] (caller's dtype, no uint8 cast here)
      ix.mapM (fun rc => extractPatch ps X rc.1 rc.2)

/-- The five parallel output arrays of `sample_pairs`:
(A, B, scanner ids a, scanner ids b, similarity labels S). -/
abbrev Arrays : Type := List Patch × List Patch × List Int × List Int × List Int

/-- An all-zero patch, one slot of the preallocated `np.zeros` patch arrays. -/
def zeroPatch (ps : Nat × Nat) : Patch :=
  List.replicate ps.1 (List.replicate ps.2 0)

/-- numpy slice assignment `A[s:e] = rhs` on axis 0: the target region is the
clamped slice; the assignment raises unless `rhs` has the region's length or
length 1 (in which case it is broadcast).  Trailing dimensions always agree in
the modelled call sites.  Returns the updated array. -/
def setSlice (A : List α) [Inhabited α] (s e : Nat) (rhs : List α) :
    Except String (List α) :=
  let s' := min s A.length
  let e' := min e A.length
  let L := e' - s'
  if rhs.length = L ∨ rhs.length = 1 then
    Except.ok (A.take s' ++
      (if rhs.length = L then rhs else List.replicate L (rhs.getD 0 default)) ++
      A.drop (max s' e'))
  else
    Except.error "could not broadcast input array onto slice"

/-- One combination block of `sample_pairs`: build the pairwise index
combinations of `la` and `lb`, extract the two patch sets (side A from
`imgA`, side B from `imgB`), and write patches, scanner ids `av`/`bv` and
similarity labels `sv` into the slice `[cnt*n, (cnt+1)*n)` of the five
preallocated arrays. -/
def writeGroup (ps : Nat × Nat) (imgA imgB : Img) (la lb : List Nat)
    (av bv sv : Int) (n cnt : Nat) (ar : Arrays) : Except String Arrays := do
  let combs := gen_index_combs la lb
  let pa ← index2patch ps imgA (PIndex.linear (combs.map Prod.fst))
  let pb ← index2patch ps imgB (PIndex.linear (combs.map Prod.snd))
  let A ← setSlice ar.1 (cnt * n) ((cnt + 1) * n) pa
  let B ← setSlice ar.2.1 (cnt * n) ((cnt + 1) * n) pb
  let a ← setSlice ar.2.2.1 (cnt * n) ((cnt + 1) * n) (List.replicate n av)
  let b ← setSlice ar.2.2.2.1 (cnt * n) ((cnt + 1) * n) (List.replicate n bv)
  let S ← setSlice ar.2.2.2.2 (cnt * n) ((cnt + 1) * n) (List.replicate n sv)
  return (A, B, a, b, S)

/-- Body of the inner "other classes" loop of `sample_pairs` (dead code: it
iterates `np.setdiff1d(classk, classes)`, which is empty).  It selects only
column 0 of the class rows (`[:, :1]`), subsamples, and then calls
`np.ravel_multi_index` with a length-1 multi-index against the 2-D image
shape, which raises unconditionally. -/
def innerStep (_X : Img) (y : List SRow) (_Z : Img) (u : List SRow) (nd : Nat × Nat)
    (st : Arrays × Nat × List (List Nat)) (classl : Int) :
    Except String (Arrays × Nat × List (List Nat)) := do
  let (_ar, _cnt, orc) := st
  let (p1, orc) ← popOracle orc
  let _iyl ← subsample_rows (classCol0 y classl) nd.1 p1
  let (p2, _orc) ← popOracle orc
  let _iul ← subsample_rows (classCol0 u classl) nd.2 p2
  Except.error "parameter multi_index must be a sequence of length 2"

/-- Body of the outer per-class loop of `sample_pairs`: subsample `nd.1`
source and `nd.2` target coordinates of class `classk` (uint8-cast by
`classIndices`), convert them to linear indices, write the three similar
combination blocks source-source (tags 0/0), source-target (0/1) and
target-target (1/1) — the shared counter `cnt` multiplies the differing block
sizes exactly as the source does — then run the (empty) dissimilar loop. -/
def classStep (ps : Nat × Nat) (X : Img) (y : List SRow) (Z : Img) (u : List SRow)
    (nd : Nat × Nat) (classes : List Int)
    (st : Arrays × Nat × List (List Nat)) (classk : Int) :
    Except String (Arrays × Nat × List (List Nat)) := do
  let (ar, cnt, orc) := st
  let (p1, orc) ← popOracle orc
  let index_yk ← subsample_rows (classIndices y classk) nd.1 p1
  let (p2, orc) ← popOracle orc
  let index_uk ← subsample_rows (classIndices u classk) nd.2 p2
  let lin_yk ← ravel_multi_index index_yk (shape2 X)
  let lin_uk ← ravel_multi_index index_uk (shape2 Z)
  let ar ← writeGroup ps X X lin_yk lin_yk 0 0 1 (nd.1 * nd.1) cnt ar
  let cnt := cnt + 1
  let ar ← writeGroup ps X Z lin_yk lin_uk 0 1 1 (nd.1 * nd.2) cnt ar
  let cnt := cnt + 1
  let ar ← writeGroup ps Z Z lin_uk lin_uk 1 1 1 (nd.2 * nd.2) cnt ar
  let cnt := cnt + 1
  (setdiff1d [classk] classes).foldlM (innerStep X y Z u nd) (ar, cnt, orc)

/-- `sample_pairs(X, y, Z, u, num_draw)`: check the draw counts against the
total number of sparse rows, intersect the class sets, preallocate the five
arrays of length `(nSrc² + nSrc·nTgt + nTgt²) · K·(K-1)` (`K` = number of
common classes), and run the per-class loop. -/
def sample_pairs (ps : Nat × Nat) (X : Img) (y : List SRow) (Z : Img)
    (u : List SRow) (nd : Nat × Nat) (orc : List (List Nat)) :
    Except String Arrays :=
  if nd.1 > y.length ∨ nd.2 > u.length then
    Except.error "Insufficient labels provided."
  else
    let classes := intersect1d (uniqueLabels y) (uniqueLabels u)
    let K := classes.length
    let N := nd.1 * nd.1 * (K * (K - 1)) + nd.1 * nd.2 * (K * (K - 1)) +
             nd.2 * nd.2 * (K * (K - 1))
    let ar0 : Arrays := (List.replicate N (zeroPatch ps), List.replicate N (zeroPatch ps),
                         List.replicate N 0, List.replicate N 0, List.replicate N 0)
    (classes.foldlM (classStep ps X y Z u nd classes) (ar0, 0, orc)).map
      (fun st => st.1)

/-- Projection: the similarity-label array `S` of a `sample_pairs` result
(empty on error). -/
def resS (r : Except String Arrays) : List Int :=
  match r with
  | Except.ok ar => ar.2.2.2.2
  | Except.error _ => []

/-- Whether an `Except` computation raised. -/
def isErr (r : Except String α) : Bool :=
  match r with
  | Except.ok _ => false
  | Except.error _ => true

/-- A 10×10 zero test image. -/
def img10 : Img := List.replicate 10 (List.replicate 10 0)

/-- Source sparse labels with two coordinates of each of the classes 1, 2, 3. -/
def ySrc : List SRow :=
  [(1, 1, some 1), (2, 2, some 1), (3, 3, some 2), (4, 4, some 2),
   (5, 5, some 3), (6, 6, some 3)]

/-- Target sparse labels with one coordinate of each of the classes 1, 2, 3. -/
def uTgt : List SRow := [(1, 2, some 1), (2, 3, some 2), (3, 4, some 3)]

/-- Randomness oracle for three classes with draws (2, 1): for each class the
source draw picks rows 0 and 1 and the target draw picks row 0. -/
def orc6 : List (List Nat) := [[0, 1], [0], [0, 1], [0], [0, 1], [0]]

/-- The `sample_pairs` run of the spec's own worked example: classes {1,2,3}
present in both maps, `nSrc = 2`, `nTgt = 1`, patch size 1×1 on 10×10 images. -/
def spRes : Except String Arrays := sample_pairs (1, 1) img10 ySrc img10 uTgt (2, 1) orc6

/-- C1: false on the code.  On the spec's own worked example (classes {1,2,3}
present in both maps, nSrc = 2, nTgt = 1) the dissimilar-pair loop of
`sample_pairs` iterates `np.setdiff1d(classk, classes)`, the set difference of
the singleton current class against the class list, which is empty, so no
dissimilar pairs are ever formed: the call succeeds, the batch has the 42
preallocated rows, and the 27 rows with label 0 are untouched zero-initialized
slots — not the 126 dissimilar Cartesian pairs the claim requires. -/
theorem c1_no_dissimilar_pairs :
    setdiff1d [(1 : Int)] [1, 2, 3] = [] ∧
    setdiff1d [(2 : Int)] [1, 2, 3] = [] ∧
    setdiff1d [(3 : Int)] [1, 2, 3] = [] ∧
    isErr spRes = false ∧
    (resS spRes).count 0 = 27 ∧ ¬ (resS spRes).count 0 = 126 := by decide

/-- C2: false on the code.  On the same worked example, the three similar
combination blocks are written through the shared counter `cnt`, which is
multiplied by each block's own size (4, 2 and 1), so the slices overlap and
overwrite one another: only 15 of the 42 rows end with similarity label 1,
not the 21 disjoint similar pairs the claim requires. -/
theorem c2_similar_pairs_overwritten :
    isErr spRes = false ∧
    (resS spRes).length = 42 ∧
    (resS spRes).count 1 = 15 ∧ ¬ (resS spRes).count 1 = 21 := by decide

/-- C3: false on the code.  With a single common class (|C| = 1) the arrays
are preallocated with `K·(K-1) = 0` rows, yet the similar-pair blocks still
try to write `nSrc² = 4` rows into the empty slice, so numpy raises a
broadcast `ValueError` instead of returning a degenerate similar-only batch. -/
theorem c3_single_class_raises :
    isErr (sample_pairs (1, 1) img10 [(1, 1, some 1), (2, 2, some 1)]
      img10 [(1, 2, some 1)] (2, 1) [[0, 1], [0]]) = true := by decide

deriving instance DecidableEq for Except

instance : DecidableEq (List Int × List Int × List Int) := inferInstance

instance : DecidableEq Arrays := inferInstance

/-- C4 counterexample: a call of `sample_pairs` that returns without raising
but whose five output sequences all have length 0, refuting the claimed
*positive* common length.  The two sparse maps have disjoint class sets
({1} and {2}), so the class intersection is empty, the preallocated length is
`(1+1+1)·0·(0-1) = 0`, the class loop never runs, and the call succeeds with
five empty sequences. -/
theorem c4_empty_batch_counterexample :
    sample_pairs (1, 1) img10 [(1, 1, some 1)] img10 [(2, 2, some 2)] (1, 1) []
      = Except.ok ([], [], [], [], []) ∧
    ¬ 0 < (resS (sample_pairs (1, 1) img10 [(1, 1, some 1)] img10
      [(2, 2, some 2)] (1, 1) [])).length := by decide

/-- C5 counterexample: `matrix2sparse` defaults to `remove_nans=False`, and
`train` builds every sparse label map with that default, so a label image
consisting of a single unknown (NaN) entry yields a sparse map containing an
entry whose class is the unknown sentinel. -/
theorem c5_nan_retained_counterexample :
    train_sparse_map [[none]] = [(0, 0, none)] ∧
    ((0, 0, none) : SRow) ∈ train_sparse_map [[none]] ∧
    ((0, 0, none) : SRow).2.2 = none := by decide

/-- C6 counterexample: for a linear index, `index2patch` assigns
`w[n], h[n] = np.unravel_index(index[n], X.shape)` and then slices rows by
`h[n]` and columns by `w[n]`, swapping the unravelled row and column.  On the
image [[0, 1], [2, 3]] with patch size 1×1, linear index 1 unravels to
(row 0, col 1), but the extracted center pixel is X[1][0] = 2, while the
flattened image at index 1 is 1. -/
theorem c6_linear_index_transposed_counterexample :
    index2patch (1, 1) [[0, 1], [2, 3]] (PIndex.linear [1]) = Except.ok [[[2]]] ∧
    ([[0, 1], [2, 3]] : Img).flatten.getD 1 0 = 1 ∧ ¬ (2 : Int) = 1 := by decide

/-- C7: false on the code.  The guard `if not len(index.shape) > 0` tests the
*rank* of the index array, not its size: an empty rank-1 coordinate array
passes the guard (its shape is `(0,)`, of length 1), the extraction loop runs
zero times, and an empty patch sequence is returned without raising.  Only a
rank-0 (scalar) index — which is not empty — triggers the
"Index is an empty array." error. -/
theorem c7_empty_index_returns_empty :
    index2patch (3, 3) img10 (PIndex.linear []) = Except.ok [] ∧
    index2patch (3, 3) img10 (PIndex.pairs []) = Except.ok [] ∧
    isErr (index2patch (3, 3) img10 (PIndex.scalar 5)) = true := by decide

/-- C5 amended: `matrix2sparse` excludes unknown (NaN) entries only when
`remove_nans` is passed as true — the code's default is false and `train`
builds its sparse maps with the default, so unknown entries are retained
there; with `remove_nans=True` no entry of the resulting sparse map has the
unknown sentinel as its class. -/
theorem c5_remove_nans_excludes_unknown (X : LImg) (edge : Nat × Nat) (p : SRow)
    (hp : p ∈ matrix2sparse X edge true) : p.2.2 ≠ none := by
  simp only [matrix2sparse, if_true, List.mem_filter] at hp
  have h := hp.2
  simpa [Option.isSome_iff_ne_none] using h

/-- Witness for the C5 amended theorem at a concrete input. -/
theorem c5_remove_nans_excludes_unknown_witness :
    ((0, 0, some 1) : SRow) ∈ matrix2sparse [[some 1]] (0, 0) true ∧
    ((0, 0, some 1) : SRow).2.2 ≠ none :=
  ⟨by decide, c5_remove_nans_excludes_unknown [[some 1]] (0, 0) _ (by decide)⟩

/-- C10: in `sample_pairs` the selected per-class coordinates are cast to
uint8 (`.astype('uint8')` inside `classIndices`) before linear-index
conversion and patch extraction, so an entry with row index `r ≥ 256`
contributes the coordinate `r % 256` — a different location — and on an image
with more than 256 rows that wrapped coordinate is still in bounds, so no
error is raised. -/
theorem c10_uint8_coordinate_wrap (y : List SRow) (c : Int) (r col H : Nat)
    (hmem : (r, col, some c) ∈ y) (hr : 256 ≤ r) (hH : 256 < H) :
    (r % 256, col % 256) ∈ classIndices y c ∧ r % 256 ≠ r ∧ r % 256 < H := by
  refine ⟨?_, ?_, ?_⟩
  · unfold classIndices
    refine List.mem_map.mpr ⟨(r, col, some c), List.mem_filter.mpr ⟨hmem, ?_⟩, rfl⟩
    simp
  · have h1 : r % 256 < 256 := Nat.mod_lt _ (by norm_num)
    omega
  · have h1 : r % 256 < 256 := Nat.mod_lt _ (by norm_num)
    omega

/-- Witness for C10 at a concrete input: row 300 wraps to 44 on a 257-row
image. -/
theorem c10_uint8_coordinate_wrap_witness :
    (300 % 256, 2 % 256) ∈ classIndices [(300, 2, some 1)] 1 ∧
    300 % 256 ≠ 300 ∧ 300 % 256 < 257 :=
  c10_uint8_coordinate_wrap [(300, 2, some 1)] 1 300 2 257 (by decide) (by decide)
    (by decide)

/-- Reading every position of a list with `getD` reproduces the list. -/
theorem map_getD_range (row : List α) (d : α) :
    (List.range row.length).map (fun i => row.getD i d) = row := by
  induction row with
  | nil => rfl
  | cons a l ih =>
      rw [List.length_cons, List.range_succ_eq_map, List.map_cons, List.map_map]
      simp only [List.getD_cons_zero, Function.comp_def, List.getD_cons_succ]
      rw [ih]

/-- Row-major enumeration of every cell of a rectangular nested list, read
with `getD`, is its flattening. -/
theorem flatMap_rows_eq_flatten (X : List (List α)) (w : Nat) (d : α)
    (hw : ∀ row ∈ X, row.length = w) :
    (List.range X.length).flatMap
      (fun jr => (List.range w).map (fun ic => (X.getD jr []).getD ic d)) =
    X.flatten := by
  induction X with
  | nil => rfl
  | cons r rest ih =>
      rw [List.length_cons, List.range_succ_eq_map, List.flatMap_cons,
        List.flatMap_map]
      simp only [List.getD_cons_zero, List.getD_cons_succ]
      rw [List.flatten_cons]
      have hr : r.length = w := hw r (by simp)
      congr 1
      · rw [← hr, map_getD_range]
      · exact ih (fun row hrow => hw row (by simp [hrow]))

/-- An in-range `getD` read is a member of the list. -/
theorem getD_mem_of_lt (l : List α) (i : Nat) (d : α) (h : i < l.length) :
    l.getD i d ∈ l := by
  rw [List.getD_eq_getElem?_getD, List.getElem?_eq_getElem h, Option.getD_some]
  exact List.getElem_mem h

/-- Summing a constant over a list multiplies it by the length. -/
theorem sum_map_const_nat (l : List α) (c : Nat) :
    (l.map (fun _ => c)).sum = l.length * c := by
  induction l with
  | nil => simp
  | cons a t ih => simp only [List.map_cons, List.sum_cons, ih,
      List.length_cons]; ring

/-- A flatMap over a strictly increasing index list is pairwise for `P`
provided each block is and distinct blocks are pointwise related. -/
theorem pairwise_flatMap_blocks {P : α → α → Prop} (f : Nat → List α) :
    ∀ (ns : List Nat), List.Pairwise (fun a b => a < b) ns →
    (∀ n, List.Pairwise P (f n)) →
    (∀ m n, m < n → ∀ a ∈ f m, ∀ b ∈ f n, P a b) →
    List.Pairwise P (ns.flatMap f)
  | [], _, _, _ => List.Pairwise.nil
  | n :: ns, hns, hin, hcross => by
      rw [List.flatMap_cons, List.pairwise_append]
      refine ⟨hin n, pairwise_flatMap_blocks f ns (List.Pairwise.sublist
        (List.sublist_cons_self n ns) hns) hin hcross, ?_⟩
      intro a ha b hb
      rcases List.mem_flatMap.mp hb with ⟨m, hm, hbm⟩
      exact hcross n m ((List.pairwise_cons.mp hns).1 m hm) a ha b hbm

/-- C8 (confirmed): on a rectangular `h × w` label image with no unknown
sentinel, `matrix2sparse` with empty border and NaN removal produces exactly
`h*w` entries, the emitted class values are exactly the image entries in
order (hence the same multiset), and the entries are sorted in row-major
(row, col) lexicographic order. -/
theorem c8_matrix2sparse_completeness (X : LImg) (h w : Nat)
    (hh : X.length = h) (hW : (X.headD []).length = w)
    (hw : ∀ row ∈ X, row.length = w)
    (hnn : ∀ row ∈ X, ∀ v ∈ row, v ≠ none) :
    (matrix2sparse X (0, 0) true).length = h * w ∧
    (matrix2sparse X (0, 0) true).map (fun r => r.2.2) = X.flatten ∧
    List.Pairwise (fun p q : SRow => p.1 < q.1 ∨ (p.1 = q.1 ∧ p.2.1 < q.2.1))
      (matrix2sparse X (0, 0) true) := by
  have hXc : (X.take h).map (fun r => r.take w) = X := by
    rw [← hh, List.take_length]
    have hcg : ∀ r ∈ X, r.take w = r := by
      intro r hr
      rw [← hw r hr, List.take_length]
    rw [List.map_congr_left hcg]
    simp
  have key : matrix2sparse X (0, 0) true =
      (List.range h).flatMap (fun jr => (List.range w).map
        (fun ic => ((jr, ic, (X.getD jr []).getD ic none) : SRow))) := by
    simp only [matrix2sparse, List.drop_zero, Nat.sub_zero, Nat.zero_add, hh,
      hW, if_true, hXc]
    rw [List.filter_eq_self.mpr]
    intro p hp
    rcases List.mem_flatMap.mp hp with ⟨jr, hjr, hp2⟩
    rcases List.mem_map.mp hp2 with ⟨ic, hic, hpe⟩
    have hjr' : jr < h := List.mem_range.mp hjr
    have hic' : ic < w := List.mem_range.mp hic
    have hrowmem : X.getD jr [] ∈ X :=
      getD_mem_of_lt X jr [] (by omega)
    have hlen : (X.getD jr []).length = w := hw _ hrowmem
    have hvmem : (X.getD jr []).getD ic none ∈ X.getD jr [] :=
      getD_mem_of_lt _ ic none (by omega)
    have := hnn _ hrowmem _ hvmem
    rw [← hpe]
    simpa [Option.isSome_iff_ne_none] using this
  refine ⟨?_, ?_, ?_⟩
  · rw [key, List.length_flatMap]
    simp only [Function.comp_def, List.length_map, List.length_range]
    rw [sum_map_const_nat, List.length_range]
  · rw [key, List.map_flatMap]
    simp only [List.map_map, Function.comp_def]
    rw [← hh]
    exact flatMap_rows_eq_flatten X w none hw
  · rw [key]
    refine pairwise_flatMap_blocks _ (List.range h) (List.pairwise_lt_range h)
      (fun n => ?_) (fun m n hmn a ha b hb => ?_)
    · exact List.Pairwise.map _ (fun i j hij => Or.inr ⟨rfl, hij⟩)
        (List.pairwise_lt_range w)
    · rcases List.mem_map.mp ha with ⟨i, _, rfl⟩
      rcases List.mem_map.mp hb with ⟨j, _, rfl⟩
      exact Or.inl hmn

/-- Witness for C8 at a concrete 2×2 image. -/
theorem c8_matrix2sparse_completeness_witness :
    (matrix2sparse [[some 1, some 2], [some 3, some 4]] (0, 0) true).length = 2 * 2 ∧
    (matrix2sparse [[some 1, some 2], [some 3, some 4]] (0, 0) true).map
      (fun r => r.2.2) = ([[some 1, some 2], [some 3, some 4]] : LImg).flatten ∧
    List.Pairwise (fun p q : SRow => p.1 < q.1 ∨ (p.1 = q.1 ∧ p.2.1 < q.2.1))
      (matrix2sparse [[some 1, some 2], [some 3, some 4]] (0, 0) true) :=
  c8_matrix2sparse_completeness [[some 1, some 2], [some 3, some 4]] 2 2
    (by decide) (by decide) (by decide) (by decide)

/-- `getD` through `drop` shifts the index. -/
theorem getD_drop' (l : List α) (a i : Nat) (d : α) :
    (l.drop a).getD i d = l.getD (a + i) d := by
  rw [List.getD_eq_getElem?_getD, List.getD_eq_getElem?_getD, List.getElem?_drop]

/-- `getD` through `take` is unchanged below the cut. -/
theorem getD_take' (l : List α) (k i : Nat) (d : α) (h : i < k) :
    (l.take k).getD i d = l.getD i d := by
  induction l generalizing k i with
  | nil => simp
  | cons a t ih =>
      cases k with
      | zero => omega
      | succ k' =>
          cases i with
          | zero => simp
          | succ i' => simpa using ih k' i' (by omega)

/-- `getD` through `map`, for an in-range index. -/
theorem getD_map_of_lt (f : α → β) (l : List α) (i : Nat) (d : α) (e : β)
    (h : i < l.length) : (l.map f).getD i e = f (l.getD i d) := by
  rw [List.getD_eq_getElem?_getD, List.getD_eq_getElem?_getD, List.getElem?_map,
    List.getElem?_eq_getElem h]
  simp

/-- `pySlice` with nonnegative in-range bounds is an ordinary drop/take. -/
theorem pySlice_of_le (a b : Nat) (l : List α) (ha : a ≤ l.length)
    (hb : b ≤ l.length) :
    pySlice (a : Int) (b : Int) l = (l.drop a).take (b - a) := by
  simp only [pySlice]
  have h1 : ¬ ((a : Int) < 0) := by omega
  have h2 : ¬ ((b : Int) < 0) := by omega
  rw [if_neg h1, if_neg h2]
  have h3 : min (a : Int) (l.length : Int) = (a : Int) := by omega
  have h4 : min (b : Int) (l.length : Int) = (b : Int) := by omega
  rw [h3, h4, Int.toNat_natCast, Int.toNat_natCast]

/-- The rectangular window of extent `(2v+1) × (2hs+1)` whose center is the
pixel `(h, w)` — what the in-range patch slice of `index2patch` extracts. -/
def patchAt (X : Img) (v hs h w : Nat) : Patch :=
  ((X.drop (h - v)).take (2 * v + 1)).map
    (fun row => (row.drop (w - hs)).take (2 * hs + 1))

/-- The center pixel of a patch with half-extents `(v, hs)`. -/
def center (pt : Patch) (v hs : Nat) : Int := (pt.getD v []).getD hs 0

/-- Reconstructing a rectangular nested list by reading every position with
`getD` reproduces the list. -/
theorem reconstruct_grid (ll : List (List α)) (k : Nat) (d : α)
    (hk : ∀ row ∈ ll, row.length = k) :
    (List.range ll.length).map
      (fun r => (List.range k).map (fun c => (ll.getD r []).getD c d)) = ll := by
  have hcg : ∀ r ∈ List.range ll.length,
      (List.range k).map (fun c => (ll.getD r []).getD c d) = ll.getD r [] := by
    intro r hr
    have hmem := getD_mem_of_lt ll r [] (List.mem_range.mp hr)
    rw [← hk _ hmem, map_getD_range]
  rw [List.map_congr_left hcg, map_getD_range]

/-- `patchAt` has `2v+1` rows when the center row is interior. -/
theorem patchAt_length (X : Img) (v hs h w H : Nat) (hH : X.length = H)
    (h1 : v ≤ h) (h2 : h + v < H) :
    (patchAt X v hs h w).length = 2 * v + 1 := by
  simp only [patchAt, List.length_map, List.length_take, List.length_drop, hH]
  omega

/-- Every row of `patchAt` has `2hs+1` entries when the center column is
interior. -/
theorem patchAt_rows (X : Img) (v hs h w W : Nat)
    (hWr : ∀ row ∈ X, row.length = W) (h3 : hs ≤ w) (h4 : w + hs < W) :
    ∀ row ∈ patchAt X v hs h w, row.length = 2 * hs + 1 := by
  intro row hrow
  rcases List.mem_map.mp hrow with ⟨r, hr, rfl⟩
  have hrX : r ∈ X := List.mem_of_mem_drop (List.mem_of_mem_take hr)
  simp only [List.length_take, List.length_drop, hWr r hrX]
  omega

/-- The center of an interior `patchAt` window is the image pixel `(h, w)`. -/
theorem patchAt_center (X : Img) (v hs h w H W : Nat) (hH : X.length = H)
    (_hWr : ∀ row ∈ X, row.length = W)
    (h1 : v ≤ h) (h2 : h + v < H) (h3 : hs ≤ w) (_h4 : w + hs < W) :
    center (patchAt X v hs h w) v hs = (X.getD h []).getD w 0 := by
  unfold center patchAt
  have hlen : v < ((X.drop (h - v)).take (2 * v + 1)).length := by
    simp only [List.length_take, List.length_drop, hH]
    omega
  rw [getD_map_of_lt _ _ v [] _ hlen, getD_take' _ _ _ _ (by omega),
    getD_drop']
  have he2 : w - hs + hs = w := by omega
  rw [he2, getD_take' _ _ _ _ (by omega), getD_drop']
  have he : h - v + v = h := by omega
  rw [he]

/-- `extractPatch` on an interior center returns exactly the `patchAt`
window. -/
theorem extractPatch_interior (X : Img) (v hs h w H W : Nat)
    (hH : X.length = H) (hWr : ∀ row ∈ X, row.length = W)
    (h1 : v ≤ h) (h2 : h + v < H) (h3 : hs ≤ w) (h4 : w + hs < W) :
    extractPatch (2 * v + 1, 2 * hs + 1) X h w = Except.ok (patchAt X v hs h w) := by
  have hv : (2 * v + 1 - 1) / 2 = v := by omega
  have hhs : (2 * hs + 1 - 1) / 2 = hs := by omega
  have e1 : ((h : Int) - v) = ((h - v : Nat) : Int) := by omega
  have e2 : ((h : Int) + v + 1) = ((h + v + 1 : Nat) : Int) := by omega
  have e3 : ((w : Int) - hs) = ((w - hs : Nat) : Int) := by omega
  have e4 : ((w : Int) + hs + 1) = ((w + hs + 1 : Nat) : Int) := by omega
  have hsub : (pySlice ((h : Int) - v) ((h : Int) + v + 1) X).map
      (pySlice ((w : Int) - hs) ((w : Int) + hs + 1)) = patchAt X v hs h w := by
    rw [e1, e2, pySlice_of_le _ _ _ (by omega) (by omega)]
    have hc : h + v + 1 - (h - v) = 2 * v + 1 := by omega
    rw [hc]
    unfold patchAt
    refine List.map_congr_left ?_
    intro r hr
    have hrX : r ∈ X := List.mem_of_mem_drop (List.mem_of_mem_take hr)
    have hrW : r.length = W := hWr r hrX
    rw [e3, e4, pySlice_of_le _ _ _ (by omega) (by omega)]
    have hc2 : w + hs + 1 - (w - hs) = 2 * hs + 1 := by omega
    rw [hc2]
  simp only [extractPatch, hv, hhs, hsub]
  have hplen : (patchAt X v hs h w).length = 2 * v + 1 :=
    patchAt_length X v hs h w H hH h1 h2
  have hprows := patchAt_rows X v hs h w W hWr h3 h4
  have hhead : ((patchAt X v hs h w).headD []).length = 2 * hs + 1 := by
    have hne : patchAt X v hs h w ≠ [] := by
      intro hcon
      rw [hcon] at hplen
      simp at hplen
    rcases List.exists_cons_of_ne_nil hne with ⟨r0, rest, hcons⟩
    rw [hcons]
    exact hprows r0 (by rw [hcons]; exact List.mem_cons_self r0 rest)
  rw [hplen, hhead, if_pos (by exact ⟨Or.inl rfl, Or.inl rfl⟩)]
  congr 1
  have hrec := reconstruct_grid (patchAt X v hs h w) (2 * hs + 1) 0 hprows
  rw [hplen] at hrec
  have hcg : ∀ r ∈ List.range (2 * v + 1),
      (List.range (2 * hs + 1)).map (fun c =>
        ((patchAt X v hs h w).getD (if 2 * v + 1 = 1 then 0 else r) []).getD
          (if 2 * hs + 1 = 1 then 0 else c) 0) =
      (List.range (2 * hs + 1)).map (fun c =>
        ((patchAt X v hs h w).getD r []).getD c 0) := by
    intro r hr
    refine List.map_congr_left ?_
    intro c hc
    have hr' : r < 2 * v + 1 := List.mem_range.mp hr
    have hc' : c < 2 * hs + 1 := List.mem_range.mp hc
    have hfr : (if 2 * v + 1 = 1 then 0 else r) = r := by
      by_cases hcase : 2 * v + 1 = 1
      · rw [if_pos hcase]; omega
      · rw [if_neg hcase]
    have hfc : (if 2 * hs + 1 = 1 then 0 else c) = c := by
      by_cases hcase : 2 * hs + 1 = 1
      · rw [if_pos hcase]; omega
      · rw [if_neg hcase]
    rw [hfr, hfc]
  rw [List.map_congr_left hcg, hrec]

/-- `mapM` into `Except` succeeds pointwise. -/
theorem mapM_ok_of_forall (f : α → Except String β) (g : α → β) :
    ∀ (l : List α), (∀ a ∈ l, f a = Except.ok (g a)) →
    l.mapM f = Except.ok (l.map g)
  | [], _ => rfl
  | a :: l, h => by
      rw [List.mapM_cons, h a (List.mem_cons_self a l),
        mapM_ok_of_forall f g l (fun x hx => h x (List.mem_cons_of_mem a hx))]
      rfl

/-- C6 amended: for explicit (row, col) coordinate pairs, `index2patch`
returns one patch per coordinate, each of shape `(2v+1) × (2hs+1)` (× 1),
whose center pixel is the image value at that coordinate.  For linear
indices the unravelled row and column are *swapped* (and reduced mod 256 by
the uint8 scratch arrays) before slicing, so the n-th center pixel is
`X[(p mod W) mod 256][(p div W) mod 256]` — the flattened image at `p` only
when the unravelled row and column coincide — rather than `X.flatten[p]`. -/
theorem c6_index2patch_shape_and_centers (v hs H W : Nat) (X : Img)
    (hH : X.length = H) (hWr : ∀ row ∈ X, row.length = W)
    (coords : List (Nat × Nat))
    (hin : ∀ rc ∈ coords, v ≤ rc.1 ∧ rc.1 + v < H ∧ hs ≤ rc.2 ∧ rc.2 + hs < W)
    (lin : List Nat)
    (hlin : ∀ p ∈ lin, p < H * W ∧ v ≤ (p % W) % 256 ∧ (p % W) % 256 + v < H ∧
      hs ≤ (p / W) % 256 ∧ (p / W) % 256 + hs < W) :
    (index2patch (2 * v + 1, 2 * hs + 1) X (PIndex.pairs coords)
        = Except.ok (coords.map (fun rc => patchAt X v hs rc.1 rc.2)) ∧
      ∀ rc ∈ coords,
        (patchAt X v hs rc.1 rc.2).length = 2 * v + 1 ∧
        (∀ row ∈ patchAt X v hs rc.1 rc.2, row.length = 2 * hs + 1) ∧
        center (patchAt X v hs rc.1 rc.2) v hs = (X.getD rc.1 []).getD rc.2 0) ∧
    (index2patch (2 * v + 1, 2 * hs + 1) X (PIndex.linear lin)
        = Except.ok (lin.map (fun p =>
            patchAt X v hs ((p % W) % 256) ((p / W) % 256))) ∧
      ∀ p ∈ lin,
        center (patchAt X v hs ((p % W) % 256) ((p / W) % 256)) v hs
          = (X.getD ((p % W) % 256) []).getD ((p / W) % 256) 0) := by
  refine ⟨⟨?_, ?_⟩, ?_, ?_⟩
  · unfold index2patch
    exact mapM_ok_of_forall _ _ coords (fun rc hrc => by
      rcases hin rc hrc with ⟨hb1, hb2, hb3, hb4⟩
      exact extractPatch_interior X v hs rc.1 rc.2 H W hH hWr hb1 hb2 hb3 hb4)
  · intro rc hrc
    rcases hin rc hrc with ⟨hb1, hb2, hb3, hb4⟩
    exact ⟨patchAt_length X v hs rc.1 rc.2 H hH hb1 hb2,
      patchAt_rows X v hs rc.1 rc.2 W hWr hb3 hb4,
      patchAt_center X v hs rc.1 rc.2 H W hH hWr hb1 hb2 hb3 hb4⟩
  · unfold index2patch
    refine mapM_ok_of_forall _ _ lin (fun p hp => ?_)
    rcases hlin p hp with ⟨hb0, hb1, hb2, hb3, hb4⟩
    have hW2 : (X.headD []).length = W := by
      have hX : X ≠ [] := by
        intro hcon
        rw [hcon] at hH
        simp at hH
        omega
      rcases List.exists_cons_of_ne_nil hX with ⟨r0, rest, hc⟩
      rw [hc]
      exact hWr r0 (by rw [hc]; exact List.mem_cons_self r0 rest)
    have hsh : shape2 X = (H, W) := by
      unfold shape2
      rw [hH, hW2]
    have hur : unravel_index p (shape2 X) = Except.ok (p / W, p % W) := by
      rw [hsh]
      unfold unravel_index
      rw [if_pos hb0]
    rw [hur]
    show extractPatch (2 * v + 1, 2 * hs + 1) X ((p % W) % 256) ((p / W) % 256)
      = _
    exact extractPatch_interior X v hs _ _ H W hH hWr hb1 hb2 hb3 hb4
  · intro p hp
    rcases hlin p hp with ⟨_, hb1, hb2, hb3, hb4⟩
    exact patchAt_center X v hs _ _ H W hH hWr hb1 hb2 hb3 hb4

/-- A 3×3 test image for the C6 witness. -/
def img3 : Img := [[1, 2, 3], [4, 5, 6], [7, 8, 9]]

/-- Witness for the C6 amended theorem at a concrete input: a 3×3 patch on a
3×3 image, one interior pair (1,1) and one linear index 4. -/
theorem c6_index2patch_shape_and_centers_witness :
    (index2patch (2 * 1 + 1, 2 * 1 + 1) img3 (PIndex.pairs [(1, 1)])
        = Except.ok ([(1, 1)].map (fun rc : Nat × Nat => patchAt img3 1 1 rc.1 rc.2)) ∧
      ∀ rc ∈ [((1 : Nat), (1 : Nat))],
        (patchAt img3 1 1 rc.1 rc.2).length = 2 * 1 + 1 ∧
        (∀ row ∈ patchAt img3 1 1 rc.1 rc.2, row.length = 2 * 1 + 1) ∧
        center (patchAt img3 1 1 rc.1 rc.2) 1 1 = (img3.getD rc.1 []).getD rc.2 0) ∧
    (index2patch (2 * 1 + 1, 2 * 1 + 1) img3 (PIndex.linear [4])
        = Except.ok ([4].map (fun p =>
            patchAt img3 1 1 ((p % 3) % 256) ((p / 3) % 256))) ∧
      ∀ p ∈ [(4 : Nat)],
        center (patchAt img3 1 1 ((p % 3) % 256) ((p / 3) % 256)) 1 1
          = (img3.getD ((p % 3) % 256) []).getD ((p / 3) % 256) 0) :=
  c6_index2patch_shape_and_centers 1 1 3 3 img3 (by decide) (by decide)
    [(1, 1)] (by decide) [4] (by decide)

/-- `np.pad(X, ((v, v), (hp, hp)), mode='constant')`: zero rows above and
below, zero columns left and right (rectangular input). -/
def pad_constant (X : Img) (v hp : Nat) : Img :=
  let W := (X.headD []).length
  let padRow := List.replicate (W + 2 * hp) (0 : Int)
  List.replicate v padRow ++
    X.map (fun r => List.replicate hp (0 : Int) ++ r ++ List.replicate hp (0 : Int)) ++
    List.replicate v padRow

/-- The `ph × pw` window of `X` with top-left corner `(i, j)`. -/
def window (X : Img) (i j ph pw : Nat) : Patch :=
  ((X.drop i).take ph).map (fun r => (r.drop j).take pw)

/-- `sklearn.feature_extraction.image.extract_patches_2d(X, (ph, pw))`:
raises when the patch exceeds the image; otherwise the dense row-major grid
of all `ph × pw` windows. -/
def extract_patches_2d (X : Img) (ph pw : Nat) : Except String (List Patch) :=
  let H := X.length
  let W := (X.headD []).length
  if ph ≤ H ∧ pw ≤ W then
    Except.ok ((List.range (H + 1 - ph)).flatMap (fun i =>
      (List.range (W + 1 - pw)).map (fun j => window X i j ph pw)))
  else
    Except.error "Height of the patch should be less than the height of the image."

/-- `np.reshape(preds, imsize)`: raises unless the element count matches. -/
def np_reshape (l : List Int) (sz : Nat × Nat) : Except String Img :=
  if l.length = sz.1 * sz.2 then
    Except.ok ((List.range sz.1).map (fun i => (l.drop (i * sz.2)).take sz.2))
  else
    Except.error "cannot reshape array"

/-- `segment_image(X, model, feed, mapost, scan_ID)`: record the input shape,
zero-pad by the patch half-extents, extract the dense patch grid, obtain one
prediction per patch, and reshape the flat prediction list back to the input
shape.  The external collaborators — the optional embedding feed-through
(`feedforward`, one embedding per patch), the classifier `model.predict`
(one prediction per feature row) and the optional max-a-posteriori collapse
(one value per prediction row) — are modelled as one opaque-to-the-core
function `predictor` from patches to per-patch predictions. -/
def segment_image (ps : Nat × Nat) (X : Img)
    (predictor : List Patch → List Int) : Except String Img := do
  let imsize := (X.length, (X.headD []).length)
  let vstep := (ps.1 - 1) / 2
  let hstep := (ps.2 - 1) / 2
  let Xp := pad_constant X vstep hstep
  let patches ← extract_patches_2d Xp ps.1 ps.2
  let preds := predictor patches
  np_reshape preds imsize

/-- Nonempty replicate blocks expose their head through an append. -/
theorem headD_replicate_append (v : Nat) (hv : 1 ≤ v) (a : α) (rest : List α)
    (d : α) : (List.replicate v a ++ rest).headD d = a := by
  obtain ⟨v', rfl⟩ : ∃ v', v = v' + 1 := ⟨v - 1, by omega⟩
  rw [List.replicate_succ]
  rfl

/-- C9 (confirmed): for a rectangular `h × w` image (`h, w ≥ 1`) and an odd
configured patch size `(2v+1) × (2hs+1)` with `v, hs ≥ 1` (size ≥ 3),
`segment_image` — which zero-pads by the half-extents, extracts the dense
patch grid, obtains one prediction per patch, and reshapes — succeeds and
returns a label image of exactly the input shape `h × w`. -/
theorem c9_segment_image_shape (v hs h w : Nat) (X : Img)
    (hH : X.length = h) (hW : (X.headD []).length = w)
    (hv : 1 ≤ v) (hhs : 1 ≤ hs) (hh : 1 ≤ h) (hw : 1 ≤ w)
    (predictor : List Patch → List Int)
    (hpred : ∀ ps, (predictor ps).length = ps.length) :
    ∃ Y, segment_image (2 * v + 1, 2 * hs + 1) X predictor = Except.ok Y ∧
      Y.length = h ∧ ∀ row ∈ Y, row.length = w := by
  have hv1 : (2 * v + 1 - 1) / 2 = v := by omega
  have hs1 : (2 * hs + 1 - 1) / 2 = hs := by omega
  have hXpl : (pad_constant X v hs).length = h + 2 * v := by
    simp only [pad_constant, List.length_append, List.length_replicate,
      List.length_map, hH]
    omega
  have hXpW : ((pad_constant X v hs).headD []).length = w + 2 * hs := by
    unfold pad_constant
    rw [List.append_assoc, headD_replicate_append v hv _ _ [],
      List.length_replicate]
    omega
  have hext : extract_patches_2d (pad_constant X v hs) (2 * v + 1) (2 * hs + 1)
      = Except.ok ((List.range ((pad_constant X v hs).length + 1 - (2 * v + 1))).flatMap
          (fun i => (List.range (((pad_constant X v hs).headD []).length + 1 - (2 * hs + 1))).map
            (fun j => window (pad_constant X v hs) i j (2 * v + 1) (2 * hs + 1)))) := by
    simp only [extract_patches_2d]
    rw [if_pos]
    constructor
    · omega
    · omega
  have hr1 : (pad_constant X v hs).length + 1 - (2 * v + 1) = h := by omega
  have hr2 : ((pad_constant X v hs).headD []).length + 1 - (2 * hs + 1) = w := by
    omega
  rw [hr1, hr2] at hext
  have hPlen : ((List.range h).flatMap (fun i => (List.range w).map
      (fun j => window (pad_constant X v hs) i j (2 * v + 1) (2 * hs + 1)))).length
      = h * w := by
    rw [List.length_flatMap]
    simp only [Function.comp_def, List.length_map, List.length_range]
    rw [sum_map_const_nat, List.length_range]
  refine ⟨(List.range h).map (fun i =>
    ((predictor ((List.range h).flatMap (fun i => (List.range w).map
      (fun j => window (pad_constant X v hs) i j (2 * v + 1) (2 * hs + 1))))).drop (i * w)).take w),
    ?_, ?_, ?_⟩
  · simp only [segment_image, hv1, hs1, hH, hW]
    rw [hext]
    show np_reshape _ (h, w) = _
    simp only [np_reshape]
    rw [if_pos (by rw [hpred, hPlen])]
  · rw [List.length_map, List.length_range]
  · intro row hrow
    rcases List.mem_map.mp hrow with ⟨i, hi, rfl⟩
    have hi' : i < h := List.mem_range.mp hi
    rw [List.length_take, List.length_drop, hpred, hPlen]
    have hmul : (i + 1) * w = i * w + w := by ring
    have hle : (i + 1) * w ≤ h * w := Nat.mul_le_mul_right w (by omega)
    omega

/-- Witness for C9 at a concrete input: 3×3 patches on a 2×2 image with a
constant classifier. -/
theorem c9_segment_image_shape_witness :
    ∃ Y, segment_image (2 * 1 + 1, 2 * 1 + 1) ([[1, 2], [3, 4]] : Img)
      (fun ps => ps.map (fun _ => 0)) = Except.ok Y ∧
      Y.length = 2 ∧ ∀ row ∈ Y, row.length = 2 :=
  c9_segment_image_shape 1 1 2 2 [[1, 2], [3, 4]] (by decide) (by decide)
    (by decide) (by decide) (by decide) (by decide) _ (fun ps => by simp)

/-- Inversion of a successful `Except` bind. -/
theorem except_bind_ok {α β : Type} {x : Except String α} {g : α → Except String β}
    {b : β} (h : (x >>= g) = Except.ok b) :
    ∃ a, x = Except.ok a ∧ g a = Except.ok b := by
  cases x with
  | ok a => exact ⟨a, rfl, h⟩
  | error e => simp [Bind.bind, Except.bind] at h

/-- Inversion of a successful `Except.map`. -/
theorem except_map_ok {α β : Type} {x : Except String α} {f : α → β} {b : β}
    (h : x.map f = Except.ok b) : ∃ a, x = Except.ok a ∧ f a = b := by
  cases x with
  | ok a =>
      refine ⟨a, rfl, ?_⟩
      simpa [Except.map] using h
  | error e => simp [Except.map] at h

/-- A successful numpy slice assignment preserves the array length. -/
theorem setSlice_length [Inhabited α] (A : List α) (s e : Nat) (rhs A' : List α)
    (h : setSlice A s e rhs = Except.ok A') : A'.length = A.length := by
  simp only [setSlice] at h
  split at h
  · injection h with h
    subst h
    simp only [List.length_append, List.length_take, List.length_drop]
    split
    · omega
    · simp only [List.length_replicate]
      omega
  · cases h

/-- A successful numpy slice assignment only introduces elements of the
right-hand side. -/
theorem setSlice_mem [Inhabited α] {P : α → Prop} (A : List α) (s e : Nat)
    (rhs A' : List α) (h : setSlice A s e rhs = Except.ok A')
    (hA : ∀ x ∈ A, P x) (hr : ∀ x ∈ rhs, P x) : ∀ x ∈ A', P x := by
  simp only [setSlice] at h
  split at h
  · rename_i hc
    injection h with h
    subst h
    intro x hx
    rcases List.mem_append.mp hx with hx1 | hx2
    · rcases List.mem_append.mp hx1 with hx3 | hx4
      · exact hA x (List.mem_of_mem_take hx3)
      · split at hx4
        · exact hr x hx4
        · rename_i hne
          have hx5 := List.eq_of_mem_replicate hx4
          subst hx5
          have hlen1 : rhs.length = 1 := by
            rcases hc with hc1 | hc2
            · exact absurd hc1 hne
            · exact hc2
          rcases List.length_eq_one.mp hlen1 with ⟨a, rfl⟩
          exact hr a (by simp)
    · exact hA x (List.mem_of_mem_drop hx2)
  · cases h

/-- An invariant preserved by each step of a `foldlM` over `Except` is
preserved by the whole fold. -/
theorem foldlM_inv_except {σ α : Type} (f : σ → α → Except String σ)
    (P : σ → Prop) (hf : ∀ s a s', f s a = Except.ok s' → P s → P s') :
    ∀ (l : List α) (s s' : σ), l.foldlM f s = Except.ok s' → P s → P s'
  | [], s, s', h, hs => by
      simp only [List.foldlM_nil] at h
      injection h with h
      subst h
      exact hs
  | a :: l, s, s', h, hs => by
      rw [List.foldlM_cons] at h
      obtain ⟨s1, h1, h2⟩ := except_bind_ok h
      exact foldlM_inv_except f P hf l s1 s' h2 (hf s a s1 h1 hs)

/-- The invariant the C4 proof threads through the `sample_pairs` loop: all
five arrays keep the preallocated length `N` and `S` holds only 0/1. -/
def ArraysInv (N : Nat) (ar : Arrays) : Prop :=
  ar.1.length = N ∧ ar.2.1.length = N ∧ ar.2.2.1.length = N ∧
  ar.2.2.2.1.length = N ∧ ar.2.2.2.2.length = N ∧
  ∀ s ∈ ar.2.2.2.2, s = 0 ∨ s = 1

/-- A successful combination block preserves the array invariant (its
similarity value is 0 or 1). -/
theorem writeGroup_inv (ps : Nat × Nat) (imgA imgB : Img) (la lb : List Nat)
    (av bv sv : Int) (n cnt : Nat) (ar ar' : Arrays) (N : Nat)
    (h : writeGroup ps imgA imgB la lb av bv sv n cnt ar = Except.ok ar')
    (hsv : sv = 0 ∨ sv = 1) (hInv : ArraysInv N ar) : ArraysInv N ar' := by
  simp only [writeGroup] at h
  obtain ⟨pa, hpa, h⟩ := except_bind_ok h
  obtain ⟨pb, hpb, h⟩ := except_bind_ok h
  obtain ⟨A, hA, h⟩ := except_bind_ok h
  obtain ⟨B, hB, h⟩ := except_bind_ok h
  obtain ⟨a, ha, h⟩ := except_bind_ok h
  obtain ⟨b, hb, h⟩ := except_bind_ok h
  obtain ⟨S, hS, h⟩ := except_bind_ok h
  injection h with h
  subst h
  obtain ⟨i1, i2, i3, i4, i5, i6⟩ := hInv
  refine ⟨?_, ?_, ?_, ?_, ?_, ?_⟩
  · rw [setSlice_length _ _ _ _ _ hA]; exact i1
  · rw [setSlice_length _ _ _ _ _ hB]; exact i2
  · rw [setSlice_length _ _ _ _ _ ha]; exact i3
  · rw [setSlice_length _ _ _ _ _ hb]; exact i4
  · rw [setSlice_length _ _ _ _ _ hS]; exact i5
  · exact setSlice_mem _ _ _ _ _ hS i6
      (fun x hx => by
        have := List.eq_of_mem_replicate hx
        subst this
        exact hsv)

/-- The inner "other classes" loop body never succeeds (it always reaches the
`np.ravel_multi_index` arity error). -/
theorem innerStep_not_ok (X : Img) (y : List SRow) (Z : Img) (u : List SRow)
    (nd : Nat × Nat) (st : Arrays × Nat × List (List Nat)) (classl : Int)
    (st' : Arrays × Nat × List (List Nat))
    (h : innerStep X y Z u nd st classl = Except.ok st') : False := by
  obtain ⟨ar, cnt, orc⟩ := st
  simp only [innerStep] at h
  obtain ⟨x1, hx1, h⟩ := except_bind_ok h
  obtain ⟨p1, orc1⟩ := x1
  obtain ⟨x2, hx2, h⟩ := except_bind_ok h
  obtain ⟨x3, hx3, h⟩ := except_bind_ok h
  obtain ⟨p2, orc2⟩ := x3
  obtain ⟨x4, hx4, h⟩ := except_bind_ok h
  cases h

/-- One pass of the per-class loop preserves the array invariant. -/
theorem classStep_inv (ps : Nat × Nat) (X : Img) (y : List SRow) (Z : Img)
    (u : List SRow) (nd : Nat × Nat) (classes : List Int) (N : Nat)
    (st st' : Arrays × Nat × List (List Nat)) (classk : Int)
    (h : classStep ps X y Z u nd classes st classk = Except.ok st')
    (hInv : ArraysInv N st.1) : ArraysInv N st'.1 := by
  obtain ⟨ar, cnt, orc⟩ := st
  simp only [classStep] at h
  obtain ⟨x1, hx1, h⟩ := except_bind_ok h
  obtain ⟨p1, orc1⟩ := x1
  obtain ⟨iyk, hiyk, h⟩ := except_bind_ok h
  obtain ⟨x2, hx2, h⟩ := except_bind_ok h
  obtain ⟨p2, orc2⟩ := x2
  obtain ⟨iuk, hiuk, h⟩ := except_bind_ok h
  obtain ⟨lyk, hlyk, h⟩ := except_bind_ok h
  obtain ⟨luk, hluk, h⟩ := except_bind_ok h
  obtain ⟨ar1, har1, h⟩ := except_bind_ok h
  obtain ⟨ar2, har2, h⟩ := except_bind_ok h
  obtain ⟨ar3, har3, h⟩ := except_bind_ok h
  have hInv1 := writeGroup_inv _ _ _ _ _ _ _ _ _ _ _ _ N har1 (Or.inr rfl) hInv
  have hInv2 := writeGroup_inv _ _ _ _ _ _ _ _ _ _ _ _ N har2 (Or.inr rfl) hInv1
  have hInv3 := writeGroup_inv _ _ _ _ _ _ _ _ _ _ _ _ N har3 (Or.inr rfl) hInv2
  exact foldlM_inv_except _ (fun s => ArraysInv N s.1)
    (fun s a s' hok _ => (innerStep_not_ok X y Z u nd s a s' hok).elim)
    _ _ _ h hInv3

/-- Every successful `sample_pairs` call returns five arrays of exactly the
preallocated length `(nSrc² + nSrc·nTgt + nTgt²) · K·(K-1)` with `S` valued
in {0, 1}. -/
theorem sample_pairs_ok_inv (ps : Nat × Nat) (X : Img) (y : List SRow)
    (Z : Img) (u : List SRow) (nd : Nat × Nat) (orc : List (List Nat))
    (A B : List Patch) (sa sb S : List Int)
    (h : sample_pairs ps X y Z u nd orc = Except.ok (A, B, sa, sb, S)) :
    ArraysInv (nd.1 * nd.1 *
        ((intersect1d (uniqueLabels y) (uniqueLabels u)).length *
          ((intersect1d (uniqueLabels y) (uniqueLabels u)).length - 1)) +
      nd.1 * nd.2 *
        ((intersect1d (uniqueLabels y) (uniqueLabels u)).length *
          ((intersect1d (uniqueLabels y) (uniqueLabels u)).length - 1)) +
      nd.2 * nd.2 *
        ((intersect1d (uniqueLabels y) (uniqueLabels u)).length *
          ((intersect1d (uniqueLabels y) (uniqueLabels u)).length - 1)))
      (A, B, sa, sb, S) := by
  simp only [sample_pairs] at h
  split at h
  · cases h
  · obtain ⟨st, hst, hmap⟩ := except_map_ok h
    obtain ⟨ar, cnt2, orc2⟩ := st
    have har : ar = (A, B, sa, sb, S) := hmap
    subst har
    refine foldlM_inv_except _ (fun s => ArraysInv _ s.1)
      (fun s a s' hok hs => classStep_inv ps X y Z u nd _ _ s s' a hok hs)
      _ _ _ hst ?_
    refine ⟨by simp, by simp, by simp, by simp, by simp, ?_⟩
    intro s hs
    exact Or.inl (List.eq_of_mem_replicate hs)

/-- C4 amended: for every call to `sample_pairs` with a positive source draw
count that returns without raising, the five output sequences A, B,
scannerIdA, scannerIdB and S all have the same length, every entry of S is 0
or 1, and that common length is positive whenever the class intersection of
the two sparse maps contains at least two classes (it is zero exactly when
the preallocated size `(nSrc²+nSrc·nTgt+nTgt²)·K·(K-1)` vanishes, e.g. for an
empty class intersection). -/
theorem c4_batch_invariant_amended (ps : Nat × Nat) (X : Img) (y : List SRow)
    (Z : Img) (u : List SRow) (nd : Nat × Nat) (orc : List (List Nat))
    (A B : List Patch) (sa sb S : List Int)
    (h : sample_pairs ps X y Z u nd orc = Except.ok (A, B, sa, sb, S))
    (hnd : 1 ≤ nd.1) :
    (A.length = S.length ∧ B.length = S.length ∧ sa.length = S.length ∧
      sb.length = S.length) ∧
    (∀ s ∈ S, s = 0 ∨ s = 1) ∧
    (2 ≤ (intersect1d (uniqueLabels y) (uniqueLabels u)).length →
      0 < S.length) := by
  obtain ⟨i1, i2, i3, i4, i5, i6⟩ :=
    sample_pairs_ok_inv ps X y Z u nd orc A B sa sb S h
  refine ⟨⟨by rw [i1, i5], by rw [i2, i5], by rw [i3, i5], by rw [i4, i5]⟩,
    i6, ?_⟩
  intro hK
  rw [i5]
  have h1 : 1 ≤ nd.1 * nd.1 := Nat.mul_le_mul hnd hnd
  have h2 : 2 ≤ (intersect1d (uniqueLabels y) (uniqueLabels u)).length *
      ((intersect1d (uniqueLabels y) (uniqueLabels u)).length - 1) := by
    calc 2 = 2 * 1 := rfl
    _ ≤ _ := Nat.mul_le_mul hK (by omega)
  have h3 : 1 * 2 ≤ nd.1 * nd.1 *
      ((intersect1d (uniqueLabels y) (uniqueLabels u)).length *
        ((intersect1d (uniqueLabels y) (uniqueLabels u)).length - 1)) :=
    Nat.mul_le_mul h1 h2
  omega

/-- Witness for the C4 amended theorem at a concrete input (disjoint class
sets, draw counts (1, 1): the call succeeds with five equal-length — here
empty — sequences). -/
theorem c4_batch_invariant_amended_witness :
    ((([] : List Patch).length = ([] : List Int).length ∧
      ([] : List Patch).length = ([] : List Int).length ∧
      ([] : List Int).length = ([] : List Int).length ∧
      ([] : List Int).length = ([] : List Int).length) ∧
     (∀ s ∈ ([] : List Int), s = 0 ∨ s = 1) ∧
     (2 ≤ (intersect1d (uniqueLabels [(1, 1, some 1)])
        (uniqueLabels [(2, 2, some 2)])).length → 0 < ([] : List Int).length)) :=
  c4_batch_invariant_amended (1, 1) img10 [(1, 1, some 1)] img10
    [(2, 2, some 2)] (1, 1) [] [] [] [] [] [] (by decide) (by decide)
